import Mathlib

/-!
Verification of the core rule engine of the `vale` prose linter
(`core/check.go`): the seven matcher semantics (existence, occurrence,
repetition, substitution, consistency, conditional, script), the shared
URL-masking preprocessing (`cleanText`), and the compile-time builders
(`addOccurrenceCheck`, `addSubstitutionCheck`, `addConsistencyCheck`).

Document text is modelled as `List Char` (the modelled documents are ASCII,
so byte offsets and character offsets coincide).  The Go regexp engine is an
external collaborator: a compiled pattern is modelled as the function from
text to the list of match results that `FindAllStringIndex` /
`FindAllStringSubmatch` / `FindAllStringSubmatchIndex` would return; for
literal token patterns the concrete matcher `findLiteral` reproduces the
leftmost non-overlapping semantics.  The URL-masking pattern of `cleanText`,
`((?:https?|ftp)://[^\s/$.?#].[^\s]*)`, is fixed in the source, so it is
modelled concretely (`findURLs`).
-/

set_option maxHeartbeats 1000000
set_option linter.unusedVariables false

namespace Vale

/-- Go regexp `\s` character class: `[\t\n\f\r ]`. -/
def goSpace (c : Char) : Bool :=
  c = ' ' || c = '\t' || c = '\n' || c = '\x0c' || c = '\r'

/-- Character class `[^\s/$.?#]` of the URL-masking pattern in `cleanText`:
the character right after the scheme must avoid these. -/
def urlForbidden (c : Char) : Bool :=
  goSpace c || c = '/' || c = '$' || c = '.' || c = '?' || c = '#'

/-- Whitespace set of `strings.TrimSpace` (ASCII part, the modelled texts are
ASCII). -/
def goTrimSpace (c : Char) : Bool :=
  c = ' ' || c = '\t' || c = '\n' || c = '\x0b' || c = '\x0c' || c = '\r'

/-- `strings.TrimSpace`. -/
def trimSpace (l : List Char) : List Char :=
  ((l.dropWhile goTrimSpace).reverse.dropWhile goTrimSpace).reverse

/-- Go string slicing `txt[a:b]`. -/
def extract (l : List Char) (a b : Nat) : List Char :=
  (l.drop a).take (b - a)

/-- Leftmost, non-overlapping matches of a literal pattern, as index pairs:
`regexp.FindAllStringIndex` for a literal token pattern.  (`i` is the offset
of the suffix being scanned; the empty pattern is never used by the modelled
rules and yields no matches.) -/
def findLiteralAux (pat : List Char) : Nat → List Char → Nat → List (Nat × Nat)
  | 0, _, _ => []
  | _ + 1, [], _ => []
  | fuel + 1, c :: tl, i =>
    if !pat.isEmpty && pat.isPrefixOf (c :: tl) then
      (i, i + pat.length) :: findLiteralAux pat fuel ((c :: tl).drop pat.length) (i + pat.length)
    else
      findLiteralAux pat fuel tl (i + 1)

/-- `regexp.FindAllStringIndex` of a literal pattern. -/
def findLiteral (pat l : List Char) : List (Nat × Nat) :=
  findLiteralAux pat l.length l 0

/-- `strings.Count`: number of non-overlapping instances of `pat` in `l`. -/
def countStr (pat l : List Char) : Nat :=
  (findLiteral pat l).length

/-- Replacement scan on a shrinking suffix; the fuel, initialized to the
text's length, dominates the number of steps (every step consumes at least
one character), and an exhausted fuel returns the suffix unchanged. -/
def replaceAllAux (pat repl : List Char) : Nat → List Char → List Char
  | 0, l => l
  | _ + 1, [] => []
  | fuel + 1, c :: tl =>
    if ¬pat.isEmpty ∧ pat.isPrefixOf (c :: tl) then
      repl ++ replaceAllAux pat repl fuel ((c :: tl).drop pat.length)
    else
      c :: replaceAllAux pat repl fuel tl

/-- `strings.Replace(l, pat, repl, -1)`: replace every non-overlapping
leftmost occurrence of `pat` by `repl`.  (The empty pattern, unused by the
modelled code, is a no-op.) -/
def replaceAll (pat repl l : List Char) : List Char :=
  replaceAllAux pat repl l.length l

/-- Length of the match of the URL-masking pattern
`((?:https?|ftp)://[^\s/$.?#].[^\s]*)` anchored at the head of `l`, if any:
a scheme, one character outside `[\s/$.?#]`, one character other than
newline, then a maximal run of non-whitespace. -/
def urlMatchLen (l : List Char) : Option Nat :=
  let sch : Option Nat :=
    if ("https://".toList).isPrefixOf l then some 8
    else if ("http://".toList).isPrefixOf l then some 7
    else if ("ftp://".toList).isPrefixOf l then some 6
    else none
  match sch with
  | none => none
  | some k =>
    match l.drop k with
    | c1 :: c2 :: rest =>
      if urlForbidden c1 || c2 = '\n' then none
      else some (k + 2 + (rest.takeWhile (fun c => !goSpace c)).length)
    | _ => none

/-- Scan for all leftmost non-overlapping matches of the URL-masking
pattern, returning the matched substrings (`FindAllString`). -/
def findURLsAux : Nat → List Char → List (List Char)
  | 0, _ => []
  | _ + 1, [] => []
  | fuel + 1, c :: tl =>
    match urlMatchLen (c :: tl) with
    | some n => (c :: tl).take n :: findURLsAux fuel ((c :: tl).drop n)
    | none => findURLsAux fuel tl

/-- `FindAllString` of the URL-masking regex over the whole text. -/
def findURLs (l : List Char) : List (List Char) :=
  findURLsAux l.length l

/-- `cleanText` (check.go): overwrite every URL-like substring with an
equal-length run of `*`.  The format-specific ignore pattern looked up in
`util.MatchIgnoreByByExtension` is a collaborator-owned table that is empty
here, so the extension tag contributes no extra alternative. -/
def cleanText (ext : String) (txt : List Char) : List Char :=
  (findURLs txt).foldl (fun t s => replaceAll s (List.replicate s.length '*') t) txt

/-- Modelled from the spec: `util.FormatMessage` (collaborator-owned)
interpolates the substitution arguments into the message template; modelled
as the template followed by the arguments, which records exactly which
arguments were supplied. -/
def formatMessage (msg : String) (subs : List String) : String :=
  String.intercalate " % " (msg :: subs)

/-- The uniform output record (`Alert`). -/
structure Alert where
  check : String
  severity : String
  span : Nat × Nat
  link : String
  message : String
  description : String
deriving DecidableEq, Repr

/-- The fields of a rule `definition` used by the modelled checks. -/
structure Definition where
  Name : String := ""
  Level : String := ""
  Link : String := ""
  Message : String := ""
  Description : String := ""
  Max : Int := 0
  Exceptions : List (List Char) := []
  Tokens : List (List Char) := []
  «Type» : String := ""
deriving DecidableEq, Repr

/-- The per-document context (`File`): normalized format tag plus the
sequence accumulated by the stateful matchers. -/
structure File where
  normedExt : String := ""
  sequences : List (List Char) := []
deriving DecidableEq, Repr

/-- `makeAlert` (check.go): alert at `loc`, message and description
formatted with the text sliced at `loc` from `txt`. -/
def makeAlert (chk : Definition) (loc : Nat × Nat) (txt : List Char) : Alert :=
  { check := chk.Name, severity := chk.Level, span := loc, link := chk.Link,
    message := formatMessage chk.Message [(extract txt loc.1 loc.2).asString],
    description := formatMessage chk.Description [(extract txt loc.1 loc.2).asString] }

/-- `util.StringInSlice`. -/
def stringInSlice (a : List Char) (l : List (List Char)) : Bool :=
  l.contains a

/-- `util.AllStringsInSlice`. -/
def allStringsInSlice (as l : List (List Char)) : Bool :=
  as.all (fun a => l.contains a)

/-- A compiled pattern's `FindAllStringIndex`, as a collaborator function. -/
abbrev Matcher := List Char → List (Nat × Nat)

/-- The `existence` matcher: one alert per match of the pattern on the
masked text, built against the original text. -/
def existenceGo (chk : Definition) (f : File) (r : Matcher) (txt : List Char) : List Alert :=
  (r (cleanText f.normedExt txt)).foldl (fun acc loc => acc ++ [makeAlert chk loc txt]) []

/-- The `occurrence` matcher: count all matches on the masked text; if the
count exceeds `lim`, one alert spanning from the first match's start to the
last match's end, with the raw (unformatted) message. -/
def occurrenceGo (chk : Definition) (f : File) (r : Matcher) (lim : Int) (txt : List Char) : List Alert :=
  let locs := r (cleanText f.normedExt txt)
  if lim < (locs.length : Int) then
    match locs with
    | [] => []
    | l0 :: _ =>
      [{ check := chk.Name, severity := chk.Level,
         span := (l0.1, (locs.getLastD (0, 0)).2), link := chk.Link,
         message := chk.Message, description := chk.Description }]
  else []

/-- The alert built inside the `repetition` loop: span `(a, b)`, message and
description formatted with the repeated (trimmed) text. -/
def mkRepAlert (chk : Definition) (a b : Nat) (curr : List Char) : Alert :=
  { check := chk.Name, severity := chk.Level, span := (a, b), link := chk.Link,
    message := formatMessage chk.Message [curr.asString],
    description := formatMessage chk.Description [curr.asString] }

/-- The `repetition` loop (check.go): walks the matches of the raw
(unmasked) text in order, threading the previous trimmed match `prev`, the
previous location `ploc` and the running counter `count`.  A hit (current
trimmed text equal to the previous one and nonempty) increments the counter;
when the counter exceeds `chk.Max` on a hit, one alert spanning from the
previous match's start to the current match's end is emitted and the counter
is reset to zero.  The counter is not touched when the run of identical
matches breaks. -/
def repetitionLoop (chk : Definition) (txt : List Char) :
    List Char → Nat × Nat → Int → List (Nat × Nat) → List Alert
  | _, _, _, [] => []
  | prev, ploc, count, loc :: rest =>
    let curr := trimSpace (extract txt loc.1 loc.2)
    let hit := curr == prev && !(curr == [])
    let count1 := if hit then count + 1 else count
    if hit && decide (chk.Max < count1) then
      mkRepAlert chk ploc.1 loc.2 curr :: repetitionLoop chk txt curr loc 0 rest
    else
      repetitionLoop chk txt curr loc count1 rest

/-- The `repetition` matcher: `prev` starts empty, `ploc` and `count` start
at zero (the initial `ploc` is never used in an alert because the first
iteration can not be a hit). -/
def repetitionGo (chk : Definition) (txt : List Char) (locs : List (Nat × Nat)) : List Alert :=
  repetitionLoop chk txt [] (0, 0) 0 locs

/-- The `conditional` matcher: on the masked text, first append the first
capture group of every `if`-pattern match (`rIf`, the result of
`FindAllStringSubmatch`) to the context's sequence, then flag every
`then`-pattern match (`rThen`) whose matched text is neither in the sequence
nor in the rule's exceptions.  Returns the alerts and the updated context. -/
def conditionalGo (chk : Definition) (f : File)
    (rIf : List Char → List (List (List Char))) (rThen : Matcher)
    (txt0 : List Char) : List Alert × File :=
  let txt := cleanText f.normedExt txt0
  let seqs := (rIf txt).foldl
    (fun acc d => if 1 < d.length then acc ++ [d.getD 1 []] else acc) f.sequences
  let fq : File := { f with sequences := seqs }
  let alerts := (rThen txt).foldl
    (fun acc loc =>
      if !stringInSlice (extract txt loc.1 loc.2) fq.sequences
          && !stringInSlice (extract txt loc.1 loc.2) chk.Exceptions then
        acc ++ [makeAlert chk loc txt]
      else acc) []
  (alerts, fq)

/-- The participation test of the submatch-index loops in `substitution` and
`consistency` (check.go): `mat != -1 && idx > 0 && idx%2 == 0`, where `mat`
is the entry of the flat submatch-index slice at `idx`. -/
def participating (submat : List Int) (idx : Nat) : Bool :=
  submat.getD idx 0 != -1 && decide (0 < idx) && idx % 2 == 0

/-- The inner loop of `substitution` for one flat submatch-index slice: for
every participating capture group at even index `idx`, one alert at the
group's span recommending `repl[idx/2 - 1]`, formatted together with the
matched (masked) text. -/
def substitutionOne (chk : Definition) (txt : List Char) (repl : List (List Char))
    (submat : List Int) : List Alert :=
  (List.range submat.length).foldl
    (fun acc idx =>
      if participating submat idx then
        acc ++ [{ check := chk.Name, severity := chk.Level,
                  span := ((submat.getD idx 0).toNat, (submat.getD (idx + 1) 0).toNat),
                  link := chk.Link,
                  message := formatMessage chk.Message
                    [(repl.getD (idx / 2 - 1) []).asString,
                     (extract txt (submat.getD idx 0).toNat (submat.getD (idx + 1) 0).toNat).asString],
                  description := formatMessage chk.Description
                    [(repl.getD (idx / 2 - 1) []).asString,
                     (extract txt (submat.getD idx 0).toNat (submat.getD (idx + 1) 0).toNat).asString] }]
      else acc) []

/-- The `substitution` matcher: bail out unless the pattern matches the raw
text (`rMatch`), then walk `FindAllStringSubmatchIndex` (`rSub`) of the
masked text, alerting once per participating capture group. -/
def substitutionGo (chk : Definition) (f : File) (repl : List (List Char))
    (rMatch : List Char → Bool) (rSub : List Char → List (List Int))
    (txt0 : List Char) : List Alert :=
  if !rMatch txt0 then []
  else
    let txt := cleanText f.normedExt txt0
    (rSub txt).foldl (fun acc submat => acc ++ substitutionOne chk txt repl submat) []

/-- The inner loop of `consistency` for one flat submatch-index slice:
thread the last participating span and append the participating groups'
names (`SubexpNames()[idx/2]`) to the sequence. -/
def consistencyInner (subexp : List (List Char)) (submat : List Int)
    (st : (Nat × Nat) × List (List Char)) : (Nat × Nat) × List (List Char) :=
  (List.range submat.length).foldl
    (fun st idx =>
      if participating submat idx then
        (((submat.getD idx 0).toNat, (submat.getD (idx + 1) 0).toNat),
         st.2 ++ [subexp.getD (idx / 2) []])
      else st) st

/-- The `consistency` matcher: walk the submatch indices of the masked text,
recording every participating group's name in the context's sequence; after
the walk, if the text had at least one match and every name in `opts` is in
the sequence, one alert at the last participating span.  Returns the alerts
and the updated context. -/
def consistencyGo (chk : Definition) (f : File) (subexp : List (List Char))
    (rSub : List Char → List (List Int)) (opts : List (List Char))
    (txt0 : List Char) : List Alert × File :=
  let txt := cleanText f.normedExt txt0
  let ms := rSub txt
  let st := ms.foldl (fun st submat => consistencyInner subexp submat st)
    (((0 : Nat), (0 : Nat)), f.sequences)
  let fq : File := { f with sequences := st.2 }
  let alerts := if !ms.isEmpty && allStringsInSlice opts st.2 then
    [makeAlert chk st.1 txt] else []
  (alerts, fq)

/-- The two failure modes of `json.Unmarshal` on a malformed payload: a
syntax error (the payload is not valid JSON; Unmarshal validates the whole
input first and leaves the target slice untouched), or an element type
error (the payload is valid JSON but an element does not decode into an
alert record; Unmarshal saves the error, skips the value, and keeps
decoding, so the slice ends up partially filled). -/
inductive UnmarshalErr where
  | syntaxErr
  | typeErr
deriving DecidableEq, Repr

/-- The `script` matcher: run the interpreter on the script and the raw
document text (`run` returns exit success and standard output).  On
success, `json.Unmarshal` decodes standard output into the freshly
allocated empty alert slice: `decode` returns the error, if any, together
with the slice contents it left behind — an untouched (empty) slice for a
syntax error, a partially filled slice for an element type error.  The Go
code logs the decode error through `util.CheckError` and returns the slice
regardless of the error; a failed or non-zero-exit process skips decoding
and returns the still-empty slice. -/
def scriptGo (run : List Char → Bool × List Char)
    (decode : List Char → Option UnmarshalErr × List Alert) (txt : List Char) : List Alert :=
  let r := run txt
  if r.1 then (decode r.2).2 else []

/-- `addOccurrenceCheck` (check.go): compile `chkDef.Tokens[0]` and register
the check when compilation succeeds and `Max >= 1`.  The Go code indexes
`Tokens[0]` without a guard: on an empty token list this is an
index-out-of-range panic, modelled as `none`.  `some true` is a registered
rule, `some false` a dropped one. -/
def addOccurrenceCheckGo (compileOk : List Char → Bool) (d : Definition) : Option Bool :=
  match d.Tokens.head? with
  | none => none
  | some t => some (compileOk t && decide (1 ≤ d.Max))

/-- The keys of `typeToFunc` (check.go): the seven recognized rule kinds.
`addCheck` registers nothing for any other kind. -/
def typeKnown (t : String) : Bool :=
  ["conditional", "consistency", "existence", "occurrence", "repetition",
   "script", "substitution"].contains t

/-- The compile-time filter of `addSubstitutionCheck`: a declared pair is
kept exactly when its pattern has as many `(` as `?:`, i.e. contributes no
capturing group of its own, so that wrapping it in `(...)` adds exactly one
group per kept pair. -/
def substKept (pairs : List (List Char × List Char)) : List (List Char × List Char) :=
  pairs.filter (fun p => countStr ['('] p.1 == countStr ['?', ':'] p.1)

/-- A compiled consistency matcher, as registered by `addConsistencyCheck`:
the variant pair its regex was built from and the two generated group
names. -/
structure CompiledCons where
  pair : List Char × List Char
  subs : List String
deriving DecidableEq, Repr

/-- `AllChecks[name] = chk` on a registry modelled as a lookup function. -/
def updateReg (reg : String → Option CompiledCons) (name : String) (c : CompiledCons) :
    String → Option CompiledCons :=
  fun n => if n = name then some c else reg n

/-- `addConsistencyCheck` (check.go): iterate the definition's variant map
(modelled as a list in iteration order); per pair, bump the counter by two,
generate the two group names from the rule key, and — when the pair's regex
compiles — register the compiled matcher under the definition's one name. -/
def addConsistencyCheckGo (compileOk : List Char × List Char → Bool)
    (chkKey name : String) (pairs : List (List Char × List Char))
    (reg : String → Option CompiledCons) : String → Option CompiledCons :=
  (pairs.foldl
    (fun (st : Nat × (String → Option CompiledCons)) p =>
      let count := st.1 + 2
      let subs := [chkKey ++ toString count, chkKey ++ toString (count + 1)]
      if compileOk p then (count, updateReg st.2 name ⟨p, subs⟩)
      else (count, st.2))
    (0, reg)).2

/-- The repetition semantics exactly as the specification's sentence states
it: a counter per run of identical consecutive trimmed matches (restarting
at every new run), an alert spanning from the first match of the run to the
current match whenever the counter exceeds the maximum, and a reset of the
counter to zero after each alert. -/
def repetitionClaimLoop (chk : Definition) (txt : List Char) :
    List Char → Nat × Nat → Int → List (Nat × Nat) → List Alert
  | _, _, _, [] => []
  | prev, runStart, count, loc :: rest =>
    let curr := trimSpace (extract txt loc.1 loc.2)
    if curr == prev && !(curr == []) then
      if decide (chk.Max < count + 1) then
        mkRepAlert chk runStart.1 loc.2 curr :: repetitionClaimLoop chk txt curr runStart 0 rest
      else
        repetitionClaimLoop chk txt curr runStart (count + 1) rest
    else
      repetitionClaimLoop chk txt curr loc 0 rest

/-- Entry point of the claimed repetition semantics. -/
def repetitionClaim (chk : Definition) (txt : List Char) (locs : List (Nat × Nat)) : List Alert :=
  repetitionClaimLoop chk txt [] (0, 0) 0 locs

/-- The amended repetition semantics, in the claim's own shape but faithful
to the code: the counter persists across run breaks and is reset to zero
only when an alert fires, and the alert spans from the immediately preceding
match to the current match. -/
def repetitionAmendLoop (chk : Definition) (txt : List Char) :
    List Char → Nat × Nat → Int → List (Nat × Nat) → List Alert
  | _, _, _, [] => []
  | prev, ploc, count, loc :: rest =>
    let curr := trimSpace (extract txt loc.1 loc.2)
    if curr == prev && !(curr == []) then
      if decide (chk.Max < count + 1) then
        mkRepAlert chk ploc.1 loc.2 curr :: repetitionAmendLoop chk txt curr loc 0 rest
      else
        repetitionAmendLoop chk txt curr loc (count + 1) rest
    else
      repetitionAmendLoop chk txt curr loc count rest

/-- Entry point of the amended repetition semantics. -/
def repetitionAmend (chk : Definition) (txt : List Char) (locs : List (Nat × Nat)) : List Alert :=
  repetitionAmendLoop chk txt [] (0, 0) 0 locs

/-- Spec-side description of the sequence appended by `conditional`: the
first capture group of every `if`-pattern match that has one. -/
def ifCaptures (defs : List (List (List Char))) : List (List Char) :=
  defs.filterMap (fun d => if 1 < d.length then some (d.getD 1 []) else none)

/-- Spec-side description of the group names recorded by `consistency` for
one flat submatch-index slice. -/
def partNames (subexp : List (List Char)) (submat : List Int) : List (List Char) :=
  ((List.range submat.length).filter (participating submat)).map
    (fun idx => subexp.getD (idx / 2) [])

/-- Spec-side description of the participating spans of one flat
submatch-index slice. -/
def partLocs (submat : List Int) : List (Nat × Nat) :=
  ((List.range submat.length).filter (participating submat)).map
    (fun idx => ((submat.getD idx 0).toNat, (submat.getD (idx + 1) 0).toNat))

/-- A Boolean prefix is at most as long as the list it prefixes. -/
theorem isPrefixOf_length_le {α : Type} [BEq α] :
    ∀ (p l : List α), p.isPrefixOf l = true → p.length ≤ l.length
  | [], _, _ => Nat.zero_le _
  | a :: as, [], h => by simp [List.isPrefixOf] at h
  | a :: as, b :: bs, h => by
    simp only [List.isPrefixOf, Bool.and_eq_true] at h
    have := isPrefixOf_length_le as bs h.2
    simpa using Nat.succ_le_succ this

/-- Same-length replacement preserves the text's length at any fuel. -/
theorem replaceAllAux_length (pat repl : List Char) (hlen : repl.length = pat.length) :
    ∀ (fuel : Nat) (l : List Char), (replaceAllAux pat repl fuel l).length = l.length := by
  intro fuel
  induction fuel with
  | zero => intro l; rfl
  | succ fuel ih =>
    intro l
    cases l with
    | nil => rfl
    | cons c tl =>
      simp only [replaceAllAux]
      split_ifs with h
      · have hple : pat.length ≤ (c :: tl).length := isPrefixOf_length_le _ _ h.2
        rw [List.length_append, ih, List.length_drop, hlen]
        simp only [List.length_cons] at hple ⊢
        omega
      · simp only [List.length_cons, ih]

/-- Same-length replacement preserves the text's length (the key fact behind
masking keeping spans valid for the original text). -/
theorem replaceAll_length (pat repl : List Char) (hlen : repl.length = pat.length) :
    ∀ l : List Char, (replaceAll pat repl l).length = l.length := by
  intro l
  exact replaceAllAux_length pat repl hlen l.length l

/-- Masking never changes the length of the text. -/
theorem cleanText_length (ext : String) (txt : List Char) :
    (cleanText ext txt).length = txt.length := by
  unfold cleanText
  generalize findURLs txt = urls
  induction urls generalizing txt with
  | nil => simp
  | cons u us ih =>
    simp only [List.foldl_cons]
    rw [ih]
    exact replaceAll_length u _ (by simp) txt

/-- Folding an append of singletons is a map. -/
theorem foldl_append_single {α β : Type} (g : α → β) :
    ∀ (l : List α) (acc : List β),
      l.foldl (fun a x => a ++ [g x]) acc = acc ++ l.map g := by
  intro l
  induction l with
  | nil => intro acc; simp
  | cons x xs ih => intro acc; simp [List.foldl_cons, ih]

/-- Folding a guarded append of singletons is a filter-then-map. -/
theorem foldl_append_filter {α β : Type} (c : α → Bool) (g : α → β) :
    ∀ (l : List α) (acc : List β),
      l.foldl (fun a x => if c x then a ++ [g x] else a) acc
        = acc ++ (l.filter c).map g := by
  intro l
  induction l with
  | nil => intro acc; simp
  | cons x xs ih =>
    intro acc
    by_cases hx : c x
    · simp [List.foldl_cons, hx, ih, List.filter_cons]
    · simp [List.foldl_cons, hx, ih, List.filter_cons]

/-- Folding an append of blocks is a flattened map. -/
theorem foldl_append_parts {α β : Type} (g : α → List β) :
    ∀ (l : List α) (acc : List β),
      l.foldl (fun a x => a ++ g x) acc = acc ++ (l.map g).flatten := by
  intro l
  induction l with
  | nil => intro acc; simp
  | cons x xs ih => intro acc; simp [List.foldl_cons, ih]

/-- `contains` distributes over append. -/
theorem contains_append {α : Type} [BEq α] (l1 l2 : List α) (a : α) :
    (l1 ++ l2).contains a = (l1.contains a || l2.contains a) := by
  induction l1 with
  | nil => simp
  | cons x xs ih => simp [List.contains_cons, ih, Bool.or_assoc]

/-- Appending a block a second time does not change membership. -/
theorem contains_append_self {α : Type} [BEq α] (l1 l2 : List α) (a : α) :
    (l1 ++ l2 ++ l2).contains a = (l1 ++ l2).contains a := by
  simp [contains_append, Bool.or_assoc]

/-- `getLastD` over an append defers to the second list. -/
theorem getLastD_append {α : Type} (l1 l2 : List α) (d : α) :
    (l1 ++ l2).getLastD d = l2.getLastD (l1.getLastD d) := by
  induction l1 generalizing d with
  | nil => simp
  | cons a l1 ih => rw [List.cons_append, List.getLastD_cons, List.getLastD_cons, ih]

/-- Folding a guarded pair update threads the last marked value in the first
component and accumulates the marked names in the second. -/
theorem foldl_mark {α γ : Type} (c : α → Bool) (gl : α → γ) (gn : α → List Char) :
    ∀ (l : List α) (st : γ × List (List Char)),
      l.foldl (fun st x => if c x then (gl x, st.2 ++ [gn x]) else st) st
        = (((l.filter c).map gl).getLastD st.1, st.2 ++ ((l.filter c).map gn)) := by
  intro l
  induction l with
  | nil => intro st; simp
  | cons x xs ih =>
    intro st
    by_cases hx : c x
    · rw [List.foldl_cons]
      simp only [hx, if_true]
      rw [ih, List.filter_cons, if_pos hx]
      simp only [List.map_cons, List.getLastD_cons, List.append_assoc, List.singleton_append]
    · rw [List.foldl_cons]
      simp only [hx, if_false, Bool.false_eq_true]
      rw [ih, List.filter_cons, if_neg (by simp [hx])]

/-- One submatch slice of `consistency`: last participating span plus the
appended group names. -/
theorem consistencyInner_spec (subexp : List (List Char)) (submat : List Int)
    (st : (Nat × Nat) × List (List Char)) :
    consistencyInner subexp submat st
      = ((partLocs submat).getLastD st.1, st.2 ++ partNames subexp submat) := by
  unfold consistencyInner partLocs partNames
  exact foldl_mark _ _ _ _ st

/-- The whole match walk of `consistency`: last participating span over all
matches plus all appended group names. -/
theorem consistencyFold_spec (subexp : List (List Char)) :
    ∀ (ms : List (List Int)) (st : (Nat × Nat) × List (List Char)),
      ms.foldl (fun st submat => consistencyInner subexp submat st) st
        = (((ms.map partLocs).flatten).getLastD st.1,
           st.2 ++ ((ms.map (partNames subexp)).flatten)) := by
  intro ms
  induction ms with
  | nil => intro st; simp
  | cons m ms ih =>
    intro st
    rw [List.foldl_cons, ih (consistencyInner subexp m st), consistencyInner_spec]
    rw [List.map_cons, List.map_cons, List.flatten_cons, List.flatten_cons,
      getLastD_append, List.append_assoc]

/-- A filter that can only succeed on one element of a duplicate-free list,
and does succeed on it, keeps exactly that element. -/
theorem filter_eq_single {p : Nat → Bool} {i0 : Nat} :
    ∀ (l : List Nat), l.Nodup → i0 ∈ l → p i0 = true →
      (∀ i ∈ l, p i = true → i = i0) → l.filter p = [i0] := by
  intro l
  induction l with
  | nil => intro _ h; simp at h
  | cons a as ih =>
    intro hnd hmem hp honly
    rcases List.mem_cons.mp hmem with rfl | hmem2
    · have htail : as.filter p = [] := by
        rw [List.filter_eq_nil_iff]
        intro b hb hpb
        have hbi : b = i0 := honly b (List.mem_cons_of_mem _ hb) hpb
        subst hbi
        exact (List.nodup_cons.mp hnd).1 hb
      simp [List.filter_cons, hp, htail]
    · have ha : p a = false := by
        by_contra hcon
        have hpa : p a = true := by revert hcon; cases p a <;> simp
        have hai : a = i0 := honly a (List.mem_cons_self a as) hpa
        subst hai
        exact (List.nodup_cons.mp hnd).1 hmem2
      rw [List.filter_cons, if_neg (by simp [ha])]
      exact ih (List.nodup_cons.mp hnd).2 hmem2 hp
        (fun i hi hpi => honly i (List.mem_cons_of_mem _ hi) hpi)

/-- Unfolding `ifCaptures` over a cons. -/
theorem ifCaptures_cons (d : List (List Char)) (ds : List (List (List Char))) :
    ifCaptures (d :: ds)
      = (if 1 < d.length then [d.getD 1 []] else []) ++ ifCaptures ds := by
  unfold ifCaptures
  rw [List.filterMap_cons]
  by_cases hd : 1 < d.length
  · rw [if_pos hd, if_pos hd, List.singleton_append]
  · rw [if_neg hd, if_neg hd, List.nil_append]

/-- The sequence fold of `conditional` appends exactly the first capture
groups of the matches that have one. -/
theorem foldl_ifCaptures :
    ∀ (defs : List (List (List Char))) (acc : List (List Char)),
      defs.foldl (fun acc d => if 1 < d.length then acc ++ [d.getD 1 []] else acc) acc
        = acc ++ ifCaptures defs := by
  intro defs
  induction defs with
  | nil => intro acc; simp [ifCaptures]
  | cons d ds ih =>
    intro acc
    rw [List.foldl_cons, ifCaptures_cons]
    by_cases hd : 1 < d.length
    · rw [if_pos hd, if_pos hd, ih, List.append_assoc]
    · rw [if_neg hd, if_neg hd, ih, List.nil_append]

/-- Characterization of `conditional`: the context's sequence grows by the
`if`-pattern captures, and the alerts are exactly the `then`-pattern matches
whose text is neither in the grown sequence nor among the exceptions. -/
theorem conditionalGo_spec (chk : Definition) (f : File)
    (rIf : List Char → List (List (List Char))) (rThen : Matcher) (txt : List Char) :
    (conditionalGo chk f rIf rThen txt).2
        = { f with sequences :=
              f.sequences ++ ifCaptures (rIf (cleanText f.normedExt txt)) }
      ∧ (conditionalGo chk f rIf rThen txt).1
          = ((rThen (cleanText f.normedExt txt)).filter (fun loc =>
                !stringInSlice (extract (cleanText f.normedExt txt) loc.1 loc.2)
                    (f.sequences ++ ifCaptures (rIf (cleanText f.normedExt txt)))
                && !stringInSlice (extract (cleanText f.normedExt txt) loc.1 loc.2)
                    chk.Exceptions)).map
              (fun loc => makeAlert chk loc (cleanText f.normedExt txt)) := by
  constructor
  · simp only [conditionalGo]
    rw [foldl_ifCaptures]
  · simp only [conditionalGo]
    rw [foldl_ifCaptures]
    exact foldl_append_filter _ _ _ []

/-- Characterization of `consistency`: the context's sequence grows by all
participating group names, and one alert fires at the last participating
span exactly when the text had a match and every configured name is in the
grown sequence. -/
theorem consistencyGo_spec (chk : Definition) (f : File) (subexp : List (List Char))
    (rSub : List Char → List (List Int)) (opts : List (List Char)) (txt : List Char) :
    (consistencyGo chk f subexp rSub opts txt).2
        = { f with sequences := f.sequences
            ++ ((rSub (cleanText f.normedExt txt)).map (partNames subexp)).flatten }
      ∧ (consistencyGo chk f subexp rSub opts txt).1
        = (if !(rSub (cleanText f.normedExt txt)).isEmpty
              && allStringsInSlice opts (f.sequences
                  ++ ((rSub (cleanText f.normedExt txt)).map (partNames subexp)).flatten)
            then [makeAlert chk
                (((rSub (cleanText f.normedExt txt)).map partLocs).flatten.getLastD (0, 0))
                (cleanText f.normedExt txt)]
            else []) := by
  constructor
  · simp only [consistencyGo]
    rw [consistencyFold_spec]
  · simp only [consistencyGo]
    rw [consistencyFold_spec]

/-- Re-appending an already appended block changes no membership test of
`allStringsInSlice`. -/
theorem allStringsInSlice_append_self (as l1 l2 : List (List Char)) :
    allStringsInSlice as (l1 ++ l2 ++ l2) = allStringsInSlice as (l1 ++ l2) := by
  unfold allStringsInSlice
  induction as with
  | nil => rfl
  | cons a as ih => simp only [List.all_cons, ih, contains_append_self]

/-- The repetition loop of the source equals the amended claim-shaped loop:
persistent counter, reset only on fire, alert span from the previous match
to the current one. -/
theorem repetitionLoop_amend (chk : Definition) (txt : List Char) :
    ∀ (locs : List (Nat × Nat)) (prev : List Char) (ploc : Nat × Nat) (count : Int),
      repetitionLoop chk txt prev ploc count locs
        = repetitionAmendLoop chk txt prev ploc count locs := by
  intro locs
  induction locs with
  | nil => intro prev ploc count; rfl
  | cons loc rest ih =>
    intro prev ploc count
    simp only [repetitionLoop, repetitionAmendLoop]
    cases hhit : (trimSpace (extract txt loc.1 loc.2) == prev
        && !(trimSpace (extract txt loc.1 loc.2) == [])) with
    | true => simp [ih]
    | false => simp [ih]

/-- A demonstration repetition rule (the rule's name, level and message play
no role in the span arithmetic). -/
def repDemoChk : Definition :=
  { Name := "vale.Repetition", Level := "error", Message := "is repeated",
    «Type» := "repetition", Max := 1 }

/-- C1 counterexample.  Two concrete refutations of the claimed repetition
semantics (`repetitionClaim`, transcribed from the claim's sentence), against
the source semantics (`repetitionGo`):
firstly, on "x x y x x" with the compiled pattern `(x|y)` (whose
`FindAllStringIndex` result is `[(0,1),(2,3),(4,5),(6,7),(8,9)]`) and
max = 1, the source fires one alert even though no run of identical
consecutive matches ever accumulates a counter above 1 — the source's
counter persists across the run break at `y` instead of accumulating "from
zero" per run — while the claimed semantics fires none;
secondly, on "x x x x" with token `x` and max = 2, the source's single alert
spans `(4, 7)` — from the immediately preceding match, not from the first
match of the run at offset 0 — while the claimed semantics spans `(0, 7)`. -/
theorem repetition_claim_counterexample :
    (repetitionGo repDemoChk "x x y x x".toList
        [(0, 1), (2, 3), (4, 5), (6, 7), (8, 9)]).length = 1
      ∧ repetitionClaim repDemoChk "x x y x x".toList
          [(0, 1), (2, 3), (4, 5), (6, 7), (8, 9)] = []
      ∧ (repetitionGo { repDemoChk with Max := 2 } "x x x x".toList
          (findLiteral "x".toList "x x x x".toList)).map Alert.span = [(4, 7)]
      ∧ (repetitionClaim { repDemoChk with Max := 2 } "x x x x".toList
          (findLiteral "x".toList "x x x x".toList)).map Alert.span = [(0, 7)] := by
  decide

/-- C1 (amended): matches are scanned in document order; a hit (current
trimmed match equal to the previous one and nonempty) increments a counter
that persists across run breaks; whenever the counter exceeds the maximum on
a hit, exactly one alert is emitted spanning from the immediately preceding
match to the current match and the counter is reset to zero, so the counter
must accumulate again from zero before the check fires again.  In
particular, for token `x` with max = 1 on "x x x x" the check fires exactly
once, with span `(2, 5)`. -/
theorem repetition_reset_amended :
    (∀ (chk : Definition) (txt : List Char) (locs : List (Nat × Nat)),
        repetitionGo chk txt locs = repetitionAmend chk txt locs)
      ∧ (repetitionGo repDemoChk "x x x x".toList
          (findLiteral "x".toList "x x x x".toList)).map Alert.span = [(2, 5)] := by
  constructor
  · intro chk txt locs
    exact repetitionLoop_amend chk txt locs [] (0, 0) 0
  · decide

/-- A demonstration occurrence rule. -/
def occDemoChk : Definition :=
  { Name := "demo.TooMuchFoo", Level := "warning", Message := "too much foo",
    «Type» := "occurrence", Max := 2, Tokens := ["foo".toList] }

/-- C2: for a compiled occurrence check (whose configured maximum is at
least 1, as `addOccurrenceCheck` requires), if the number of matches of its
pattern in the masked text exceeds the maximum, exactly one alert is
produced, spanning from the start byte of the first match to the end byte of
the last match, with the raw message; if the match count is at most the
maximum (including zero matches), no alert is produced. -/
theorem occurrence_threshold (chk : Definition) (f : File) (r : Matcher)
    (lim : Int) (txt : List Char) (hlim : 1 ≤ lim) :
    (lim < ((r (cleanText f.normedExt txt)).length : Int) →
        occurrenceGo chk f r lim txt
          = [{ check := chk.Name, severity := chk.Level,
               span := (((r (cleanText f.normedExt txt)).headD (0, 0)).1,
                        ((r (cleanText f.normedExt txt)).getLastD (0, 0)).2),
               link := chk.Link, message := chk.Message,
               description := chk.Description }])
      ∧ (((r (cleanText f.normedExt txt)).length : Int) ≤ lim →
          occurrenceGo chk f r lim txt = []) := by
  constructor
  · intro hgt
    cases hlocs : r (cleanText f.normedExt txt) with
    | nil =>
      exfalso
      rw [hlocs] at hgt
      simp at hgt
      omega
    | cons l0 rest =>
      rw [hlocs] at hgt
      simp only [occurrenceGo, hlocs]
      rw [if_pos hgt]
      simp
  · intro hle
    simp only [occurrenceGo]
    rw [if_neg (by omega)]

/-- C2 witness: pattern `foo` with max = 2 — three occurrences give exactly
one alert spanning first-to-last match, two occurrences give none. -/
theorem occurrence_threshold_witness :
    occurrenceGo occDemoChk {} (findLiteral "foo".toList) 2 "foo a foo b foo".toList
        = [{ check := "demo.TooMuchFoo", severity := "warning", span := (0, 15),
             link := "", message := "too much foo", description := "" }]
      ∧ occurrenceGo occDemoChk {} (findLiteral "foo".toList) 2 "foo a foo b".toList = [] := by
  constructor
  · exact ((occurrence_threshold occDemoChk {} (findLiteral "foo".toList) 2
      "foo a foo b foo".toList (by decide)).1 (by decide)).trans (by decide)
  · exact (occurrence_threshold occDemoChk {} (findLiteral "foo".toList) 2
      "foo a foo b".toList (by decide)).2 (by decide)

/-- A demonstration existence rule banning the token `foo`. -/
def maskDemoChk : Definition :=
  { Name := "demo.Banned", Level := "error", Message := "avoid foo",
    «Type» := "existence", Tokens := ["foo".toList] }

/-- C3 counterexample: the `repetition` matcher does not mask.  On the text
"http://ab.cd/foo/foo" — which the URL-masking pattern covers entirely, as
the first conjunct shows, so the token `foo` occurs only inside a URL-like
substring — a compiled repetition check on token `foo` (pattern `(foo)`,
whose raw-text matches are computed by `findLiteral`) still emits an alert,
with a span inside the URL.  Under the claim, no matcher may flag a token
occurring only inside a URL-like substring. -/
theorem masking_counterexample :
    cleanText "" "http://ab.cd/foo/foo".toList = List.replicate 20 '*'
      ∧ (repetitionGo { repDemoChk with Max := 0 } "http://ab.cd/foo/foo".toList
          (findLiteral "foo".toList "http://ab.cd/foo/foo".toList)).map Alert.span
        = [(13, 20)] := by
  decide

/-- C3 (amended): the existence, occurrence, substitution, consistency and
conditional matchers match on the masked working copy produced by
`cleanText`, in which URL-like substrings are overwritten with an
equal-length run of `*` — masking preserves the text's length, so reported
spans index into the original unmasked text — and a token occurring only
inside a URL-like substring is not flagged by them while the identical token
outside a URL is flagged at its literal offsets; the repetition matcher (and
the text handed to a script check) uses the raw unmasked text, so a token
inside a URL can still be flagged by a repetition check. -/
theorem masking_amended :
    (∀ (ext : String) (txt : List Char), (cleanText ext txt).length = txt.length)
      ∧ (∀ (chk : Definition) (f : File) (r : Matcher) (txt : List Char),
          existenceGo chk f r txt
            = (r (cleanText f.normedExt txt)).map (fun loc => makeAlert chk loc txt))
      ∧ existenceGo maskDemoChk {} (findLiteral "foo".toList)
          "see http://ab.cd/foo now".toList = []
      ∧ (existenceGo maskDemoChk {} (findLiteral "foo".toList)
          "a foo b".toList).map Alert.span = [(2, 5)] := by
  refine ⟨cleanText_length, ?_, by decide, by decide⟩
  intro chk f r txt
  unfold existenceGo
  exact foldl_append_single _ _ []

/-- An occurrence definition whose token list is empty (e.g. a rule file
with `extends: occurrence` and no `tokens:` entry). -/
def emptyTokensDef : Definition :=
  { Name := "demo.Empty", Level := "error", Message := "m",
    «Type» := "occurrence", Max := 2, Tokens := [] }

/-- C7: the claim (and spec section 7) says a malformed definition is
dropped with an error and loading continues.  `addOccurrenceCheck` however
evaluates `chkDef.Tokens[0]` unguarded, so an occurrence definition with an
empty token sequence panics with an index-out-of-range (modelled as `none`),
aborting the whole load, instead of being dropped: the code contradicts the
spec's own error-handling design.  For contrast, a definition with a token
and max of at least 1 registers (`some true`), and an unrecognized kind is
not in `typeToFunc`, so `addCheck` registers nothing for it. -/
theorem occurrence_empty_tokens_panics :
    addOccurrenceCheckGo (fun _ => true) emptyTokensDef = none
      ∧ addOccurrenceCheckGo (fun _ => true) occDemoChk = some true
      ∧ typeKnown "occurrences" = false := by
  decide

/-- The Go zero value of the alert record, as left behind by
`json.Unmarshal` for an array element it could not decode into the
struct. -/
def zeroAlert : Alert :=
  { check := "", severity := "", span := (0, 0), link := "", message := "",
    description := "" }

/-- `json.Unmarshal` into a fresh empty alert slice on the demonstration
payloads: `[1]` is valid JSON, so the slice is grown to one element, the
element `1` fails to decode into an alert record, an element type error is
saved and the zero-valued record is left behind; `[]` decodes cleanly; any
other payload here fails JSON validation, which leaves the slice
untouched. -/
def unmarshalDemo (out : List Char) : Option UnmarshalErr × List Alert :=
  if out = "[1]".toList then (some UnmarshalErr.typeErr, [zeroAlert])
  else if out = "[]".toList then (none, [])
  else (some UnmarshalErr.syntaxErr, [])

/-- C8 counterexample: a compiled script check whose external process exits
zero and prints `[1]` — syntactically valid JSON that is not an array of
alert-shaped records.  `json.Unmarshal` grows the slice, fails on the
element, saves an element type error and leaves one zero-valued record;
`script` logs the error and returns the slice anyway, so the check returns
one alert, not the zero alerts the claim promises. -/
theorem script_claim_counterexample :
    scriptGo (fun _ => (true, "[1]".toList)) unmarshalDemo "doc".toList = [zeroAlert]
      ∧ scriptGo (fun _ => (true, "[1]".toList)) unmarshalDemo "doc".toList ≠ [] := by
  decide

/-- C8 (amended): for every compiled script check and every document text,
a failed or non-zero-exit external process yields exactly zero alerts (the
decoder is never consulted); when the process succeeds but the decoder
leaves the slice empty — as `json.Unmarshal` does whenever the output fails
JSON validation — the check again yields exactly zero alerts; but when the
process succeeds, the check returns exactly the slice the decoder left
behind, the decode error being only logged — so syntactically valid JSON
that is not an array of alert-shaped records can produce a non-empty,
partially filled alert list.  `scriptGo` is total, so none of these
failures aborts the scan of the document or the other checks. -/
theorem script_failure_amended
    (run : List Char → Bool × List Char)
    (decode : List Char → Option UnmarshalErr × List Alert) (txt : List Char) :
    ((run txt).1 = false → scriptGo run decode txt = [])
      ∧ ((decode (run txt).2).2 = [] → scriptGo run decode txt = [])
      ∧ ((run txt).1 = true → scriptGo run decode txt = (decode (run txt).2).2) := by
  refine ⟨?_, ?_, ?_⟩
  · intro h
    simp [scriptGo, h]
  · intro h
    simp only [scriptGo]
    cases hr : (run txt).1 with
    | false => simp
    | true => simp [h]
  · intro h
    simp [scriptGo, h]

/-- C8 witness: the three cases at concrete inputs — a failing process, a
process printing syntactically invalid output (zero alerts), and a process
printing the valid but wrongly shaped `[1]`, whose partially filled slice
is passed through. -/
theorem script_failure_amended_witness :
    scriptGo (fun _ => (false, [])) unmarshalDemo "doc".toList = []
      ∧ scriptGo (fun _ => (true, "oops".toList)) unmarshalDemo "doc".toList = []
      ∧ scriptGo (fun _ => (true, "[1]".toList)) unmarshalDemo "doc".toList
          = (unmarshalDemo "[1]".toList).2 := by
  refine ⟨?_, ?_, ?_⟩
  · exact (script_failure_amended (fun _ => (false, [])) unmarshalDemo
      "doc".toList).1 rfl
  · exact (script_failure_amended (fun _ => (true, "oops".toList)) unmarshalDemo
      "doc".toList).2.1 (by decide)
  · exact (script_failure_amended (fun _ => (true, "[1]".toList)) unmarshalDemo
      "doc".toList).2.2 rfl

/-- C4: on each document, `conditional` first appends the first
capture-group text of every `if`-pattern match to the context's sequence,
and then every `then`-pattern match yields exactly one alert unless its
exact matched text is already present in that (grown) sequence or is listed
in the rule's exception set. -/
theorem conditional_sequence_semantics (chk : Definition) (f : File)
    (rIf : List Char → List (List (List Char))) (rThen : Matcher) (txt : List Char) :
    (conditionalGo chk f rIf rThen txt).2
        = { f with sequences :=
              f.sequences ++ ifCaptures (rIf (cleanText f.normedExt txt)) }
      ∧ (conditionalGo chk f rIf rThen txt).1
          = ((rThen (cleanText f.normedExt txt)).filter (fun loc =>
                !stringInSlice (extract (cleanText f.normedExt txt) loc.1 loc.2)
                    (f.sequences ++ ifCaptures (rIf (cleanText f.normedExt txt)))
                && !stringInSlice (extract (cleanText f.normedExt txt) loc.1 loc.2)
                    chk.Exceptions)).map
              (fun loc => makeAlert chk loc (cleanText f.normedExt txt)) :=
  conditionalGo_spec chk f rIf rThen txt

/-- C5: the substitution matcher.  First conjunct: when the compiled pattern
matches the raw text, the check's alerts are exactly the per-match alerts of
the masked text's submatch walk, in match order.  Second conjunct: for every
declared pair list, in any iteration order, and every pair kept at compile
time (index `j` in the kept list), a match in which exactly that pair's
capturing group (flat submatch index `2*(j+1)`) participated produces
exactly one alert, recommending precisely that pair's replacement alongside
the matched text. -/
theorem substitution_alignment :
    (∀ (chk : Definition) (f : File) (repl : List (List Char))
        (rMatch : List Char → Bool) (rSub : List Char → List (List Int)) (txt : List Char),
        rMatch txt = true →
        substitutionGo chk f repl rMatch rSub txt
          = ((rSub (cleanText f.normedExt txt)).map
              (substitutionOne chk (cleanText f.normedExt txt) repl)).flatten)
  ∧ (∀ (chk : Definition) (txt : List Char) (pairs : List (List Char × List Char))
        (j : Nat) (submat : List Int),
        j < (substKept pairs).length →
        2 * (j + 1) < submat.length →
        participating submat (2 * (j + 1)) = true →
        (∀ i, i < submat.length → participating submat i = true → i = 2 * (j + 1)) →
        substitutionOne chk txt ((substKept pairs).map Prod.snd) submat
          = [{ check := chk.Name, severity := chk.Level,
               span := ((submat.getD (2 * (j + 1)) 0).toNat,
                        (submat.getD (2 * (j + 1) + 1) 0).toNat),
               link := chk.Link,
               message := formatMessage chk.Message
                 [((substKept pairs).getD j ([], [])).2.asString,
                  (extract txt (submat.getD (2 * (j + 1)) 0).toNat
                     (submat.getD (2 * (j + 1) + 1) 0).toNat).asString],
               description := formatMessage chk.Description
                 [((substKept pairs).getD j ([], [])).2.asString,
                  (extract txt (submat.getD (2 * (j + 1)) 0).toNat
                     (submat.getD (2 * (j + 1) + 1) 0).toNat).asString] }]) := by
  constructor
  · intro chk f repl rMatch rSub txt hm
    simp only [substitutionGo, hm, Bool.not_true, Bool.false_eq_true, if_false]
    exact foldl_append_parts _ _ []
  · intro chk txt pairs j submat hj hlen hpart honly
    unfold substitutionOne
    rw [foldl_append_filter, List.nil_append]
    rw [filter_eq_single (List.range submat.length) (List.nodup_range _)
        (List.mem_range.mpr hlen) hpart
        (fun i hi hpi => honly i (List.mem_range.mp hi) hpi)]
    simp only [List.map_cons, List.map_nil]
    have hidx : 2 * (j + 1) / 2 - 1 = j := by omega
    rw [hidx]
    have hrep : ((substKept pairs).map Prod.snd).getD j []
        = ((substKept pairs).getD j ([], [])).2 := by
      rw [List.getD_eq_getElem?_getD, List.getElem?_map, List.getD_eq_getElem?_getD]
      cases hx : (substKept pairs)[j]? with
      | none =>
        exfalso
        rw [List.getElem?_eq_none_iff] at hx
        omega
      | some p => rfl
    rw [hrep]

/-- Two declared substitution pairs, in one iteration order. -/
def subDemoPairs : List (List Char × List Char) :=
  [("foo".toList, "bar".toList), ("qux".toList, "baz".toList)]

/-- A demonstration substitution rule. -/
def subDemoChk : Definition :=
  { Name := "demo.Sub", Level := "warning", Message := "use",
    «Type» := "substitution" }

/-- C5 witness: on text "a qux b", a match in which the second kept pair's
group participated (flat submatch row `[2, 5, -1, -1, 2, 5]`) yields exactly
one alert recommending that pair's replacement "baz" for the matched text
"qux" — both through the per-match loop and through the whole check. -/
theorem substitution_alignment_witness :
    substitutionOne subDemoChk "a qux b".toList
        (List.map Prod.snd (substKept subDemoPairs)) [2, 5, -1, -1, 2, 5]
      = [{ check := "demo.Sub", severity := "warning", span := (2, 5), link := "",
           message := formatMessage "use" ["baz", "qux"],
           description := formatMessage "" ["baz", "qux"] }]
      ∧ substitutionGo subDemoChk {} (List.map Prod.snd (substKept subDemoPairs))
          (fun _ => true) (fun _ => [[2, 5, -1, -1, 2, 5]]) "a qux b".toList
        = [{ check := "demo.Sub", severity := "warning", span := (2, 5), link := "",
             message := formatMessage "use" ["baz", "qux"],
             description := formatMessage "" ["baz", "qux"] }] := by
  constructor
  · have h := substitution_alignment.2 subDemoChk "a qux b".toList subDemoPairs 1
      [2, 5, -1, -1, 2, 5] (by decide) (by decide) (by decide) (by decide)
    exact h.trans (by decide)
  · exact (substitution_alignment.1 subDemoChk {}
      (List.map Prod.snd (substKept subDemoPairs)) (fun _ => true)
      (fun _ => [[2, 5, -1, -1, 2, 5]]) "a qux b".toList rfl).trans (by decide)

/-- A demonstration conditional rule: the `if` pattern captures the term
being defined by its expanded form, the `then` pattern matches bare uses. -/
def condDemoChk : Definition :=
  { Name := "demo.Acronym", Level := "warning", Message := "define first",
    «Type» := "conditional" }

/-- `FindAllStringSubmatch` of the demonstration `if` pattern: one row per
occurrence of the expanded definition, first capture group "HTML". -/
def condIfMatcher : List Char → List (List (List Char)) :=
  fun t => (findLiteral "HTML (HyperText Markup Language)".toList t).map
    (fun l => [extract t l.1 l.2, "HTML".toList])

/-- Sanity example for the conditional matcher (spec section 8): a document
defining "HTML (HyperText Markup Language)" never flags the later bare
"HTML", while a document with no prior definition flags the bare use at its
span. -/
theorem conditionalGo_example :
    (conditionalGo condDemoChk {} condIfMatcher (findLiteral "HTML".toList)
        "HTML (HyperText Markup Language) then HTML again".toList).1 = []
      ∧ ((conditionalGo condDemoChk {} condIfMatcher (findLiteral "HTML".toList)
          "just HTML here".toList).1).map Alert.span = [(5, 9)] := by
  decide

/-- A demonstration consistency rule over the pair (color, colour). -/
def consDemoChk : Definition :=
  { Name := "demo.Spelling", Level := "warning", Message := "inconsistent spelling",
    «Type» := "consistency" }

/-- `SubexpNames()` of the compiled pair pattern
`\b(?:(?P<p2>color)|(?P<p3>colour))\b`: index 0 is the whole match's empty
name, then the two generated group names. -/
def consSubexp : List (List Char) := ["".toList, "p2".toList, "p3".toList]

/-- The two group names whose joint presence in the sequence fires the
check. -/
def consOpts : List (List Char) := ["p2".toList, "p3".toList]

/-- `FindAllStringSubmatchIndex` of the pair pattern on ASCII text: one flat
six-entry row per match — the whole-match span, then the span of whichever
named group participated and `-1, -1` for the other.  (On the demonstration
texts every `color` match precedes every `colour` match, so the
concatenation is in document order.) -/
def consMatcher : List Char → List (List Int) :=
  fun t =>
    (findLiteral "color".toList t).map
      (fun l => [(l.1 : Int), (l.2 : Int), (l.1 : Int), (l.2 : Int), -1, -1])
    ++ (findLiteral "colour".toList t).map
      (fun l => [(l.1 : Int), (l.2 : Int), -1, -1, (l.1 : Int), (l.2 : Int)])

/-- C6 counterexample: a document scan in which the Document Context's
sequence already contains both group names — the sequence is shared
per-document state, filled earlier in the same scan, e.g. by a conditional
check whose `if`-captures matched the literal words "p2" and "p3" in the
document — and whose text contains the variant `color` but (first conjunct)
not `colour`.  The claim's second half says a document in which only one
variant of the pair occurs yields zero alerts; the code raises one alert at
the single `color` occurrence, because it tests the accumulated sequence,
not the matches of this document. -/
theorem consistency_counterexample :
    findLiteral "colour".toList "the color here".toList = []
      ∧ ((consistencyGo consDemoChk { sequences := ["p2".toList, "p3".toList] }
            consSubexp consMatcher consOpts "the color here".toList).1).map Alert.span
        = [(4, 9)] := by
  decide

/-- C6 (amended): after processing all matches, exactly one alert is raised
— at the span of the last participating capture (the triggering match) —
precisely when the pattern matched at least once in this document and both
configured names appear in the accumulated sequence (which may also contain
entries recorded earlier in the scan); in particular, on a fresh context, a
document using "color" then "colour" yields exactly one alert at the second
occurrence, and a document using only "color" throughout yields zero
alerts provided the sequence does not already hold both names. -/
theorem consistency_amended :
    (∀ (chk : Definition) (f : File) (subexp : List (List Char))
        (rSub : List Char → List (List Int)) (opts : List (List Char)) (txt : List Char),
        (consistencyGo chk f subexp rSub opts txt).2
            = { f with sequences := f.sequences
                ++ ((rSub (cleanText f.normedExt txt)).map (partNames subexp)).flatten }
          ∧ (consistencyGo chk f subexp rSub opts txt).1
            = (if !(rSub (cleanText f.normedExt txt)).isEmpty
                  && allStringsInSlice opts (f.sequences
                      ++ ((rSub (cleanText f.normedExt txt)).map (partNames subexp)).flatten)
                then [makeAlert chk
                    (((rSub (cleanText f.normedExt txt)).map partLocs).flatten.getLastD (0, 0))
                    (cleanText f.normedExt txt)]
                else []))
      ∧ ((consistencyGo consDemoChk {} consSubexp consMatcher consOpts
            "color or colour".toList).1).map Alert.span = [(9, 15)]
      ∧ (consistencyGo consDemoChk {} consSubexp consMatcher consOpts
            "color only color".toList).1 = [] := by
  refine ⟨fun chk f subexp rSub opts txt => consistencyGo_spec chk f subexp rSub opts txt,
    by decide, by decide⟩

/-- The `existence` matcher as a state-threaded run (it leaves the context
unchanged). -/
def existenceRun (chk : Definition) (f : File) (r : Matcher) (txt : List Char) :
    List Alert × File :=
  (existenceGo chk f r txt, f)

/-- The `occurrence` matcher as a state-threaded run. -/
def occurrenceRun (chk : Definition) (f : File) (r : Matcher) (lim : Int)
    (txt : List Char) : List Alert × File :=
  (occurrenceGo chk f r lim txt, f)

/-- The `repetition` matcher as a state-threaded run. -/
def repetitionRun (chk : Definition) (f : File) (txt : List Char)
    (locs : List (Nat × Nat)) : List Alert × File :=
  (repetitionGo chk txt locs, f)

/-- The `substitution` matcher as a state-threaded run. -/
def substitutionRun (chk : Definition) (f : File) (repl : List (List Char))
    (rMatch : List Char → Bool) (rSub : List Char → List (List Int))
    (txt : List Char) : List Alert × File :=
  (substitutionGo chk f repl rMatch rSub txt, f)

/-- The `script` matcher as a state-threaded run. -/
def scriptRun (run : List Char → Bool × List Char)
    (decode : List Char → Option UnmarshalErr × List Alert) (f : File) (txt : List Char) :
    List Alert × File :=
  (scriptGo run decode txt, f)

/-- C9: running any of the seven compiled checks twice in succession on the
identical document text and the same Document Context — the second run
receives the context produced by the first — yields two identical alert
lists.  For the two stateful matchers this holds because re-appending the
same captures or group names changes no membership test; the other five do
not touch the context (the external process of a script check is modelled
as a function of the text). -/
theorem check_rerun_stable :
    (∀ (chk : Definition) (f : File) (rIf : List Char → List (List (List Char)))
        (rThen : Matcher) (txt : List Char),
        (conditionalGo chk (conditionalGo chk f rIf rThen txt).2 rIf rThen txt).1
          = (conditionalGo chk f rIf rThen txt).1)
  ∧ (∀ (chk : Definition) (f : File) (subexp : List (List Char))
        (rSub : List Char → List (List Int)) (opts : List (List Char)) (txt : List Char),
        (consistencyGo chk (consistencyGo chk f subexp rSub opts txt).2 subexp rSub opts txt).1
          = (consistencyGo chk f subexp rSub opts txt).1)
  ∧ (∀ (chk : Definition) (f : File) (r : Matcher) (txt : List Char),
        (existenceRun chk (existenceRun chk f r txt).2 r txt).1
          = (existenceRun chk f r txt).1)
  ∧ (∀ (chk : Definition) (f : File) (r : Matcher) (lim : Int) (txt : List Char),
        (occurrenceRun chk (occurrenceRun chk f r lim txt).2 r lim txt).1
          = (occurrenceRun chk f r lim txt).1)
  ∧ (∀ (chk : Definition) (f : File) (txt : List Char) (locs : List (Nat × Nat)),
        (repetitionRun chk (repetitionRun chk f txt locs).2 txt locs).1
          = (repetitionRun chk f txt locs).1)
  ∧ (∀ (chk : Definition) (f : File) (repl : List (List Char))
        (rMatch : List Char → Bool) (rSub : List Char → List (List Int)) (txt : List Char),
        (substitutionRun chk (substitutionRun chk f repl rMatch rSub txt).2 repl rMatch rSub txt).1
          = (substitutionRun chk f repl rMatch rSub txt).1)
  ∧ (∀ (run : List Char → Bool × List Char)
        (decode : List Char → Option UnmarshalErr × List Alert)
        (f : File) (txt : List Char),
        (scriptRun run decode (scriptRun run decode f txt).2 txt).1
          = (scriptRun run decode f txt).1) := by
  refine ⟨?_, ?_, fun _ _ _ _ => rfl, fun _ _ _ _ _ => rfl, fun _ _ _ _ => rfl,
    fun _ _ _ _ _ _ => rfl, fun _ _ _ _ => rfl⟩
  · intro chk f rIf rThen txt
    have h1 := conditionalGo_spec chk f rIf rThen txt
    rw [h1.1, (conditionalGo_spec chk _ rIf rThen txt).2, h1.2]
    dsimp only
    congr 1
    apply List.filter_congr
    intro loc hmem
    simp only [stringInSlice, contains_append_self]
  · intro chk f subexp rSub opts txt
    have h1 := consistencyGo_spec chk f subexp rSub opts txt
    rw [h1.1, (consistencyGo_spec chk _ subexp rSub opts txt).2, h1.2]
    dsimp only
    rw [allStringsInSlice_append_self]

/-- C10: compiling a consistency definition with several variant pairs
registers each pair's compiled matcher in turn under the definition's single
qualified name; each registration overwrites the previous one, so the check
remaining under that name is built from exactly the last pair whose regex
compiled — not from all declared pairs. -/
theorem consistency_last_pair_wins (compileOk : List Char × List Char → Bool)
    (chkKey name : String) (pairs : List (List Char × List Char))
    (reg : String → Option CompiledCons) :
    (addConsistencyCheckGo compileOk chkKey name pairs reg name).map CompiledCons.pair
      = (match (pairs.filter compileOk).getLast? with
          | some p => some p
          | none => (reg name).map CompiledCons.pair) := by
  have key : ∀ (ps : List (List Char × List Char)) (st : Nat × (String → Option CompiledCons)),
      ((ps.foldl
          (fun (st : Nat × (String → Option CompiledCons)) p =>
            let count := st.1 + 2
            let subs := [chkKey ++ toString count, chkKey ++ toString (count + 1)]
            if compileOk p then (count, updateReg st.2 name ⟨p, subs⟩)
            else (count, st.2)) st).2 name).map CompiledCons.pair
        = (match (ps.filter compileOk).getLast? with
            | some p => some p
            | none => (st.2 name).map CompiledCons.pair) := by
    intro ps
    induction ps with
    | nil => intro st; rfl
    | cons p ps ih =>
      intro st
      rw [List.foldl_cons, ih, List.filter_cons]
      by_cases hc : compileOk p
      · rw [if_pos hc, if_pos hc]
        cases hl : (ps.filter compileOk).getLast? with
        | some q =>
          rw [List.getLast?_cons, hl]
          rfl
        | none =>
          have hnil : ps.filter compileOk = [] := List.getLast?_eq_none_iff.mp hl
          rw [hnil]
          simp [updateReg]
      · rw [if_neg hc, if_neg hc]
  exact key pairs (0, reg)

end Vale
